import Mathlib

/-
  Formal embedding of the SamewaveRadio schedule renderer.

  The repository is a small Express + Playwright service with three
  near-duplicate server variants:
  * `src/unnamed/part_000` (first document): the "memory-safe" variant that
    reuses one browser behind a cached launch promise (`browserPromise`),
    serializes renders through a promise-chain queue (`withQueue`), waits for
    `domcontentloaded` + `document.fonts.ready` + a fixed 150 ms settle delay,
    and closes the per-job page and context in a `finally` block.
  * `src/server.js` (two documents): per-request variants that launch a fresh
    browser for each render and wait for `networkidle`.

  The pagination engine and the line-width estimator described by the design
  document live in an external n8n function, not under `src/`; those are
  modelled from the specification text and are marked as such below.

  JavaScript strings are embedded as Lean `String`/`List Char`; machine
  numbers that matter here are small non-negative integers and are embedded
  as `Nat`.  Cooperative single-threaded execution (Node's event loop) is
  embedded by explicit state passing; promise settlement instants are `Nat`
  time stamps.
-/

/-! ## HTML escaping (src/unnamed/part_000 lines 53-61, src/server.js lines 60-70) -/

/-- JS `a || b` specialised to strings: the left operand is kept unless it is
falsy, and the only falsy string is the empty string.  Used for fallback
chains such as `data.headerLeft || data.titleLeft || "..."`. -/
def strOr (a : Option String) (b : String) : String :=
  match a with
  | some s => if s.isEmpty then b else s
  | none => b

/-- One step of the regex replacement in `escapeHtml`
(`String(str).replace(/[&<>"']/g, m => ({...})[m])`, part_000 lines 53-61):
each of the five matched characters is replaced by its HTML entity and every
other character is kept unchanged.  The apostrophe is `Char.ofNat 39`. -/
def escapeChar (c : Char) : List Char :=
  if c = '&' then "&amp;".data
  else if c = '<' then "&lt;".data
  else if c = '>' then "&gt;".data
  else if c = '"' then "&quot;".data
  else if c = Char.ofNat 39 then "&#039;".data
  else [c]

/-- Character-list form of `escapeHtml`: the global regex replacement visits
every character once, left to right. -/
def escList (cs : List Char) : List Char :=
  cs.flatMap escapeChar

/-- `escapeHtml` from part_000 lines 53-61 (identical in src/server.js
lines 60-70 and 482-490). -/
def escapeHtml (s : String) : String :=
  String.mk (escList s.data)

/-- The five replacement entities produced by `escapeHtml`. -/
def htmlEntities : List (List Char) :=
  ["&amp;".data, "&lt;".data, "&gt;".data, "&quot;".data, "&#039;".data]

/-- `leadsWith e l` holds when the list `l` starts with the entity `e`. -/
def leadsWith : List Char → List Char → Bool
  | [], _ => true
  | _ :: _, [] => false
  | a :: as, b :: bs => a == b && leadsWith as bs

/-- `beginsEntity l` holds when `l` starts with one of the five entities. -/
def beginsEntity (l : List Char) : Bool :=
  htmlEntities.any (fun e => leadsWith e l)

/-- The characters that could open or close markup or break out of a quoted
attribute: `<`, `>`, `"` and the apostrophe. -/
def rawMarkupChar (c : Char) : Bool :=
  c = '<' || c = '>' || c = '"' || c = Char.ofNat 39

/-! ## Markup fragments built by `htmlFor` (part_000 lines 87-111) -/

/-- One normalized row as `htmlFor` consumes it: the `left` show line and the
`right` date label. -/
structure RowLR where
  left : String
  right : String

/-- `.join("")` on a list of template fragments. -/
def concatAll : List String → String
  | [] => ""
  | s :: rest => s ++ concatAll rest

/-- The per-row template of `htmlFor` (part_000 lines 102-111): both user
texts pass through `escapeHtml` before interpolation. -/
def rowHtml (r : RowLR) : String :=
  "\n      <div class=\"tRow\">\n        <div class=\"left\">" ++ escapeHtml r.left ++
    "</div>\n        <div class=\"right\">" ++ escapeHtml r.right ++
    "</div>\n      </div>\n    "

/-- `rowsHtml` (part_000 lines 102-111): the row fragments joined with `""`. -/
def rowsHtml (rows : List RowLR) : String :=
  concatAll (rows.map rowHtml)

/-- `headerLeft` as computed at part_000 line 91:
`escapeHtml(data.headerLeft || data.titleLeft || "THIS WEEK ON SAMEWAVE RADIO")`. -/
def headerLeftHtml (headerLeft titleLeft : Option String) : String :=
  escapeHtml (strOr headerLeft (strOr titleLeft "THIS WEEK ON SAMEWAVE RADIO"))

/-- `headerRight` as computed at part_000 line 92:
`escapeHtml(data.headerRight || data.dateRange || "")`. -/
def headerRightHtml (headerRight dateRange : Option String) : String :=
  escapeHtml (strOr headerRight (strOr dateRange ""))

/-- Count of `<` characters in a string; used to show that user data never
injects markup into the row fragments. -/
def ltCount (s : String) : Nat :=
  s.data.count '<'

/-! ## Line-width estimator and pagination engine

The design document (sections 4.1 and 4.2) specifies these two components;
their implementation lives in the external n8n function that produces the
`days[]` payload, not under `src/`, so they are modelled from the
specification text. -/

/-- Modelled from the spec: the JS `String.prototype.trim` used by the
Line-Width Estimator (section 4.1, "Trims input"), whose implementation is
not under `src/`.  Removes leading and trailing whitespace. -/
def trimChars (l : List Char) : List Char :=
  ((l.dropWhile Char.isWhitespace).reverse.dropWhile Char.isWhitespace).reverse

/-- Modelled from the spec: `estimate(text, charsPerLine)` (section 4.1),
whose implementation is not under `src/`.  Trims the input; empty or blank
text yields 1; otherwise the ceiling of `length / charsPerLine`, floored
at 1.  `(l + c - 1) / c` is the ceiling of `l / c` on naturals. -/
def estimate (text : String) (charsPerLine : Nat) : Nat :=
  let t := trimChars text.data
  if t.isEmpty then 1
  else max 1 ((t.length + charsPerLine - 1) / charsPerLine)

/-- Modelled from the spec: a schedule entry (section 3). -/
structure ScheduleEntry where
  dayKey : String
  label : String
  startInstant : Nat
  sortKey : Nat
deriving DecidableEq

/-- Modelled from the spec: a day's worth of entries, kept atomic during
pagination (section 3). -/
structure DayGroup where
  dayKey : String
  entries : List ScheduleEntry
deriving DecidableEq

/-- Modelled from the spec: the pagination configuration (section 4.2). -/
structure PaginateConfig where
  maxLinesPerPage : Nat
  dayHeaderCost : Nat
  charsPerLine : Nat
deriving DecidableEq

/-- Modelled from the spec: `groupCost = dayHeaderCost + Σ estimate(entry.label,
charsPerLine)` over the group's entries (section 4.2). -/
def groupCost (cfg : PaginateConfig) (g : DayGroup) : Nat :=
  cfg.dayHeaderCost + (g.entries.map (fun e => estimate e.label cfg.charsPerLine)).sum

/-- Summed `groupCost` of one page's day groups. -/
def pageCost (cfg : PaginateConfig) (p : List DayGroup) : Nat :=
  (p.map (groupCost cfg)).sum

/-- Modelled from the spec: the single greedy pass of the pagination engine
(section 4.2), whose implementation is not under `src/`.  `current` is the
page being filled and `used` its accumulated cost; when the next group no
longer fits a non-empty page, the page is closed and a new one is started. -/
def paginateGo (cfg : PaginateConfig) :
    List DayGroup → List DayGroup → Nat → List (List DayGroup)
  | [], current, _ => if current = [] then [] else [current]
  | g :: rest, current, used =>
    let c := groupCost cfg g
    if current ≠ [] ∧ cfg.maxLinesPerPage < used + c then
      current :: paginateGo cfg rest [g] c
    else
      paginateGo cfg rest (current ++ [g]) (used + c)

/-- Modelled from the spec: an output page with its 1-based index and the
total page count (section 3). -/
structure Page where
  index : Nat
  total : Nat
  dayGroups : List DayGroup
deriving DecidableEq

/-- Modelled from the spec: the pagination engine (section 4.2).  Runs the
greedy pass from an empty page and decorates the raw pages with their
1-based index and the total count. -/
def paginate (cfg : PaginateConfig) (groups : List DayGroup) : List Page :=
  let raw := paginateGo cfg groups [] 0
  raw.enum.map (fun ip => { index := ip.1 + 1, total := raw.length, dayGroups := ip.2 })

/-! ## Promise-chain render queue (part_000 lines 249-255)

Node's event loop is single threaded, so the `renderFn` of each submission
runs between two settlement instants; a settlement instant is a `Nat` time
stamp.  `withQueue(fn)` evaluates `queue.then(fn, fn)` — invoking `fn` once
the previous chain link settles, whether it fulfilled or rejected — and then
replaces `queue` with `run.catch(() => {})`, which keeps the chain alive
after a failed job. -/

/-- A settled JS promise in the timing model: when it settles and whether it
fulfils. -/
structure QPromise where
  settleAt : Nat
  ok : Bool
deriving DecidableEq

/-- A render job as the queue sees it: how long its `renderFn` runs once
invoked and whether it fails. -/
structure QueuedJob where
  duration : Nat
  fails : Bool
deriving DecidableEq

/-- The observable run of one job: when its `renderFn` was invoked, when it
settled, and its outcome. -/
structure JobRun where
  start : Nat
  finish : Nat
  ok : Bool
deriving DecidableEq

/-- Placeholder run used with `List.getD`. -/
def noRun : JobRun := { start := 0, finish := 0, ok := true }

/-- `queue.then(fn, fn)` (part_000 line 251): `fn` is invoked at the previous
link's settlement instant regardless of its outcome, and the returned
promise settles with `fn`'s own outcome. -/
def thenBoth (q : QPromise) (j : QueuedJob) : QPromise × JobRun :=
  let s := q.settleAt
  let e := s + j.duration
  ({ settleAt := e, ok := !j.fails }, { start := s, finish := e, ok := !j.fails })

/-- `run.catch(() => {})` (part_000 line 253): settles fulfilled at the same
instant, so one failed job never breaks the chain. -/
def catchUnit (q : QPromise) : QPromise :=
  { settleAt := q.settleAt, ok := true }

/-- All submissions in arrival order, each chained through `withQueue`:
`run = queue.then(fn, fn); queue = run.catch(() => {})`. -/
def submitAll (q : QPromise) : List QueuedJob → List JobRun
  | [] => []
  | j :: rest =>
    let (run, r) := thenBoth q j
    r :: submitAll (catchUnit run) rest

/-- The trace of runs produced by submitting `jobs` to the initial queue
`Promise.resolve()` (part_000 line 249). -/
def renderTrace (jobs : List QueuedJob) : List JobRun :=
  submitAll { settleAt := 0, ok := true } jobs

/-! ## Engine handle and the render executor (part_000 lines 246-324)

The module-level mutable state of part_000 is embedded as an explicit record
threaded through the jobs, which the promise-chain queue runs one at a
time.  A cached launch is a generation id plus the environment's verdict on
whether that `chromium.launch` fulfils. -/

/-- The launch promise cached in the module variable `browserPromise`. -/
structure LaunchP where
  id : Nat
  ok : Bool
deriving DecidableEq

/-- Module state of the renderer: the cached launch (if any), the next
launch generation id, and counters of currently open browser contexts and
pages, used to state the no-leak property. -/
structure EngineState where
  browserPromise : Option LaunchP
  nextId : Nat
  openContexts : Nat
  openPages : Nat
deriving DecidableEq

/-- `getBrowser` (part_000 lines 257-264): if no launch is cached, start one
and cache it (there is no suspension point between the test and the
assignment, so the step is atomic on the event loop); otherwise return the
cached launch promise.  `freshOk` is the environment's verdict on a launch
started now. -/
def getBrowser (freshOk : Bool) (s : EngineState) : LaunchP × EngineState :=
  match s.browserPromise with
  | some lp => (lp, s)
  | none =>
    let lp : LaunchP := { id := s.nextId, ok := freshOk }
    (lp, { s with browserPromise := some lp, nextId := s.nextId + 1 })

/-- `n` callers reaching `getBrowser`, serialized by the event loop. -/
def getBrowserN (freshOk : Bool) : Nat → EngineState → List LaunchP × EngineState
  | 0, s => ([], s)
  | n + 1, s =>
    let (lp, s1) := getBrowser freshOk s
    let (ls, s2) := getBrowserN freshOk n s1
    (lp :: ls, s2)

/-- What the environment does to one queued render job: whether a fresh
launch made for it rejects, whether content load (`setContent`, fonts) or
capture (`screenshot`) throws, and whether the teardown closes throw. -/
structure RenderJob where
  launchFails : Bool
  loadFails : Bool
  captureFails : Bool
  closePageThrows : Bool
  closeContextThrows : Bool
deriving DecidableEq

/-- A job all of whose own steps succeed. -/
def cleanJob (j : RenderJob) : Prop :=
  j.launchFails = false ∧ j.loadFails = false ∧ j.captureFails = false

instance (j : RenderJob) : Decidable (cleanJob j) := by
  unfold cleanJob; infer_instance

/-- What one handler invocation sends back and whether anything escaped it:
the HTTP status (`200` or `500`), the generation id of the launch promise it
awaited, whether `getBrowser` started a new launch for it, and whether any
error propagated out of the handler to the caller. -/
structure JobResult where
  status : Nat
  engineId : Nat
  freshLaunch : Bool
  escaped : Bool
deriving DecidableEq

/-- Placeholder result used with `List.getD`. -/
def noResult : JobResult := { status := 0, engineId := 0, freshLaunch := false, escaped := false }

/-- Placeholder job used with `List.getD`. -/
def noJob : RenderJob := { launchFails := false, loadFails := false, captureFails := false,
                           closePageThrows := false, closeContextThrows := false }

/-- A JS close call: fulfils, or rejects when the surface is already broken. -/
def closeResult (throws : Bool) : Except Unit Unit :=
  if throws then Except.error () else Except.ok ()

/-- `try { ... } catch {}` (part_000 lines 320-321): whatever the body did,
no error escapes. -/
def tryCatchIgnore (a : Except Unit Unit) : Except Unit Unit :=
  match a with
  | Except.ok _ => Except.ok ()
  | Except.error _ => Except.ok ()

/-- `try { if (page) await page.close(); } catch {}` (part_000 line 320): a
present page is released even when closing throws, and the error is
swallowed. -/
def closePageQuietly (present throws : Bool) (s : EngineState) : EngineState × Except Unit Unit :=
  if present then
    ({ s with openPages := s.openPages - 1 }, tryCatchIgnore (closeResult throws))
  else
    (s, Except.ok ())

/-- `try { if (context) await context.close(); } catch {}` (part_000
line 321). -/
def closeContextQuietly (present throws : Bool) (s : EngineState) : EngineState × Except Unit Unit :=
  if present then
    ({ s with openContexts := s.openContexts - 1 }, tryCatchIgnore (closeResult throws))
  else
    (s, Except.ok ())

/-- One queued job body (part_000 lines 282-323).  `await getBrowser()`; on
success create the context and page (the two surface counters go up), run
load then capture; the `catch` block answers 500 and clears
`browserPromise`; the `finally` block closes page then context, each inside
its own `try ... catch {}`.  The result records the status sent, the launch
generation awaited, whether this job started the launch, and whether any
error escaped the handler (the combined verdict of the two guarded
closes). -/
def runJob (s : EngineState) (j : RenderJob) : JobResult × EngineState :=
  let fresh := s.browserPromise.isNone
  let (lp, s1) := getBrowser (!j.launchFails) s
  if lp.ok then
    let s2 := { s1 with openContexts := s1.openContexts + 1, openPages := s1.openPages + 1 }
    let body : Nat × EngineState :=
      if j.loadFails || j.captureFails then
        (500, { s2 with browserPromise := none })
      else
        (200, s2)
    let (s3, e1) := closePageQuietly true j.closePageThrows body.2
    let (s4, e2) := closeContextQuietly true j.closeContextThrows s3
    ({ status := body.1, engineId := lp.id, freshLaunch := fresh,
       escaped := !e1.isOk || !e2.isOk }, s4)
  else
    let (s3, e1) := closePageQuietly false j.closePageThrows { s1 with browserPromise := none }
    let (s4, e2) := closeContextQuietly false j.closeContextThrows s3
    ({ status := 500, engineId := lp.id, freshLaunch := fresh,
       escaped := !e1.isOk || !e2.isOk }, s4)

/-- The queued jobs in FIFO order, threading the module state. -/
def runAll (s : EngineState) : List RenderJob → List JobResult × EngineState
  | [] => ([], s)
  | j :: rest =>
    let (r, s1) := runJob s j
    let (rs, s2) := runAll (s1) rest
    (r :: rs, s2)

/-- Every launch cached in the state fulfils: no failed launch or render is
left behind as a "ready" engine. -/
def cacheReady (s : EngineState) : Prop :=
  ∀ lp, s.browserPromise = some lp → lp.ok = true

/-! ## Load waits before capture (part_000 lines 297-303, src/server.js lines 409 and 711) -/

/-- The environment of one content load: when the content-parsed signal
(`domcontentloaded`) fires, when `document.fonts.ready` resolves, and when —
if ever — all network activity quiesces (`none` means a long-lived
connection keeps the network busy forever). -/
structure LoadEnv where
  parseDone : Nat
  fontsDone : Nat
  networkIdleAt : Option Nat
deriving DecidableEq

/-- The fixed settle delay passed to `page.waitForTimeout` at part_000
line 303. -/
def settleDelayMs : Nat := 150

/-- Capture instant of the queued executor (part_000 lines 297-303):
`setContent(..., { waitUntil: "domcontentloaded" })`, then
`await page.evaluate(() => document.fonts?.ready)`, then
`await page.waitForTimeout(150)`. -/
def queuedCaptureAt (e : LoadEnv) : Nat :=
  max e.parseDone e.fontsDone + settleDelayMs

/-- Capture instant of the per-request handlers in `src/server.js`
(lines 409 and 711): `setContent(..., { waitUntil: "networkidle" })`
resolves only when all network activity quiesces, so the screenshot is
reached at that instant — or never (`none`) when it never quiesces. -/
def serverCaptureAt (e : LoadEnv) : Option Nat :=
  e.networkIdleAt

/-! ## Viewport, clip and size defaults (part_000 lines 277-308) -/

/-- The request's optional `size` field; each dimension may be absent. -/
structure SizeReq where
  width : Option Nat
  height : Option Nat
deriving DecidableEq

/-- The part of the request body the sizing logic reads. -/
structure RenderData where
  size : Option SizeReq
deriving DecidableEq

/-- `data?.size?.width ?? 1080` (part_000 line 277). -/
def widthOf (d : RenderData) : Nat :=
  (d.size.bind SizeReq.width).getD 1080

/-- `data?.size?.height ?? 1350` (part_000 line 278). -/
def heightOf (d : RenderData) : Nat :=
  (d.size.bind SizeReq.height).getD 1350

/-- A viewport in CSS pixels. -/
structure Viewport where
  width : Nat
  height : Nat
deriving DecidableEq

/-- The options passed to `browser.newContext` (part_000 lines 288-291). -/
structure ContextOptions where
  viewport : Viewport
  deviceScaleFactor : Nat
deriving DecidableEq

/-- The clip rectangle passed to `page.screenshot` (part_000 lines 305-308). -/
structure Clip where
  x : Nat
  y : Nat
  width : Nat
  height : Nat
deriving DecidableEq

/-- `browser.newContext({ viewport: { width: W, height: H },
deviceScaleFactor: 1 })` for a request. -/
def contextOptionsFor (d : RenderData) : ContextOptions :=
  { viewport := { width := widthOf d, height := heightOf d }, deviceScaleFactor := 1 }

/-- `page.screenshot({ type: "png", clip: { x: 0, y: 0, width: W, height: H } })`
for a request. -/
def screenshotClipFor (d : RenderData) : Clip :=
  { x := 0, y := 0, width := widthOf d, height := heightOf d }

/-! ## Theorems -/

/-- C8: `estimate` returns 1 on blank input and otherwise the ceiling of
`length(trim(text)) / charsPerLine` floored at 1; the result is always at
least 1.  The ceiling is characterised exactly: the trimmed length fits in
`estimate` lines of `C` characters but not in one line fewer.  Determinism
and freedom from side effects hold because `estimate` is a pure function of
its arguments. -/
theorem c8_estimate_spec (text : String) (C : Nat) (hC : 0 < C) :
    1 ≤ estimate text C ∧
    (trimChars text.data = [] → estimate text C = 1) ∧
    (trimChars text.data ≠ [] →
      (trimChars text.data).length ≤ C * estimate text C ∧
      C * (estimate text C - 1) < (trimChars text.data).length) := by
  unfold estimate
  by_cases hemp : trimChars text.data = []
  · simp [hemp]
  · have hne : (trimChars text.data).isEmpty = false := by
      simp [List.isEmpty_iff, hemp]
    simp only [hne, Bool.false_eq_true, if_false]
    have hl : 1 ≤ (trimChars text.data).length := List.length_pos.mpr hemp
    set l := (trimChars text.data).length with hldef
    set q := (l + C - 1) / C with hqdef
    have hq1 : 1 ≤ q := (Nat.one_le_div_iff hC).mpr (by omega)
    have hmax : max 1 q = q := Nat.max_eq_right hq1
    have hdm := Nat.div_add_mod (l + C - 1) C
    have hr : (l + C - 1) % C < C := Nat.mod_lt _ hC
    have hqe : C * q = C * (q - 1) + C := by
      have hs : q - 1 + 1 = q := Nat.succ_pred_eq_of_pos hq1
      calc C * q = C * (q - 1 + 1) := by rw [hs]
        _ = C * (q - 1) + C := by ring
    rw [hmax]
    refine ⟨hq1, fun h => absurd h hemp, fun _ => ⟨?_, ?_⟩⟩
    · set x := C * q with hx
      omega
    · set y := C * (q - 1) with hy
      set x := C * q with hx
      omega

/-- C8 witness: a non-blank five-character text at 2 characters per line. -/
theorem c8_estimate_spec_witness :
    0 < 2 ∧
    (trimChars "abcde".data).length ≤ 2 * estimate "abcde" 2 ∧
    2 * (estimate "abcde" 2 - 1) < (trimChars "abcde".data).length :=
  ⟨by decide, (c8_estimate_spec "abcde" 2 (by decide)).2.2 (by decide)⟩

/-- C9: the browsing context's viewport is exactly the requested width and
height with device scale factor 1, the screenshot clip is exactly
`(0, 0, width, height)` with the same dimensions as the viewport, and a
request without a `size` field defaults to 1080 by 1350. -/
theorem c9_viewport_clip_defaults (d : RenderData) :
    (contextOptionsFor d).viewport.width = widthOf d ∧
    (contextOptionsFor d).viewport.height = heightOf d ∧
    (contextOptionsFor d).deviceScaleFactor = 1 ∧
    screenshotClipFor d =
      { x := 0, y := 0, width := (contextOptionsFor d).viewport.width,
        height := (contextOptionsFor d).viewport.height } ∧
    (d.size = none → widthOf d = 1080 ∧ heightOf d = 1350) := by
  refine ⟨rfl, rfl, rfl, rfl, fun h => ?_⟩
  rw [widthOf, heightOf, h]
  exact ⟨rfl, rfl⟩

/-- C9 witness: a request with no `size` field gets the 1080 by 1350
default. -/
theorem c9_viewport_clip_defaults_witness :
    widthOf { size := none } = 1080 ∧ heightOf { size := none } = 1350 :=
  (c9_viewport_clip_defaults { size := none }).2.2.2.2 rfl

/-- C3 counterexample: the claim quantifies over the repository's render
paths, but the per-request handler embedded from `src/server.js` line 409
(and identically line 711) waits on the unbounded `networkidle` condition —
in an environment whose network activity never quiesces it never reaches
the capture step at all, so the render path does wait on an unbounded
all-network-activity-idle condition. -/
theorem c3_networkidle_counterexample :
    serverCaptureAt { parseDone := 0, fontsDone := 0, networkIdleAt := none } = none := rfl

/-- C3 (amended): the queue-serialized executor of `src/unnamed/part_000`
(lines 297-303) waits for the content-parsed signal, the document-fonts
signal and a fixed 150 ms settle delay before capturing, and its capture
instant is independent of when — if ever — network activity quiesces; the
per-request handlers in `src/server.js` instead wait on the unbounded
network-idle condition. -/
theorem c3_bounded_settle_amended (e : LoadEnv) :
    queuedCaptureAt e = max e.parseDone e.fontsDone + settleDelayMs ∧
    settleDelayMs = 150 ∧
    (∀ t, queuedCaptureAt { e with networkIdleAt := t } = queuedCaptureAt e) ∧
    (∀ t, serverCaptureAt { e with networkIdleAt := some t } = some t) :=
  ⟨rfl, rfl, fun _ => rfl, fun _ => rfl⟩

/-- `getBrowser` on a state with a cached launch returns the cache and
leaves the state untouched. -/
theorem getBrowser_cached (ok : Bool) (s : EngineState) (lp : LaunchP)
    (h : s.browserPromise = some lp) : getBrowser ok s = (lp, s) := by
  unfold getBrowser
  rw [h]

/-- Repeated `getBrowser` calls on a state with a cached launch all return
that launch and never change the state. -/
theorem getBrowserN_cached (ok : Bool) (n : Nat) (s : EngineState) (lp : LaunchP)
    (h : s.browserPromise = some lp) :
    getBrowserN ok n s = (List.replicate n lp, s) := by
  induction n with
  | zero => rfl
  | succ n ih =>
    show (let (lp1, s1) := getBrowser ok s
          let (ls, s2) := getBrowserN ok n s1
          (lp1 :: ls, s2)) = _
    rw [getBrowser_cached ok s lp h]
    simp only [ih, List.replicate_succ]

/-- C5: engine creation is single-flight.  Any number of serialized callers
(the `if (!browserPromise)` test and the assignment have no suspension
point between them, so each call is one atomic event-loop step) all receive
the same launch promise; the launch-generation counter grows by at most one
— it grows only when no launch was cached — and a caller that finds a
cached launch gets exactly that launch with the state unchanged. -/
theorem c5_engine_single_flight (ok : Bool) (n : Nat) (s : EngineState) :
    (getBrowserN ok n s).1.length = n ∧
    (∀ a ∈ (getBrowserN ok n s).1, ∀ b ∈ (getBrowserN ok n s).1, a = b) ∧
    (getBrowserN ok n s).2.nextId =
      s.nextId + (if n ≠ 0 ∧ s.browserPromise = none then 1 else 0) ∧
    (∀ lp, s.browserPromise = some lp → getBrowser ok s = (lp, s)) := by
  rcases n with _ | n
  · refine ⟨rfl, by simp [getBrowserN], by simp [getBrowserN], fun lp h => getBrowser_cached ok s lp h⟩
  · rcases hbp : s.browserPromise with _ | lp
    · have hfresh : getBrowser ok s =
          (⟨s.nextId, ok⟩, { s with browserPromise := some ⟨s.nextId, ok⟩, nextId := s.nextId + 1 }) := by
        unfold getBrowser
        rw [hbp]
      have hrest := getBrowserN_cached ok n
        { s with browserPromise := some ⟨s.nextId, ok⟩, nextId := s.nextId + 1 }
        ⟨s.nextId, ok⟩ rfl
      have hstep : getBrowserN ok (n + 1) s =
          ((⟨s.nextId, ok⟩ : LaunchP) :: List.replicate n (⟨s.nextId, ok⟩ : LaunchP),
           { s with browserPromise := some ⟨s.nextId, ok⟩, nextId := s.nextId + 1 }) := by
        show (let (lp1, s1) := getBrowser ok s
              let (ls, s2) := getBrowserN ok n s1
              (lp1 :: ls, s2)) = _
        rw [hfresh]
        simp only [hrest]
      rw [hstep]
      refine ⟨by simp, ?_, by simp [hbp], fun lp h => by simp at h⟩
      intro a ha b hb
      rcases List.mem_cons.mp ha with ha | ha
      · rcases List.mem_cons.mp hb with hb | hb
        · rw [ha, hb]
        · rw [ha, List.eq_of_mem_replicate hb]
      · rcases List.mem_cons.mp hb with hb | hb
        · rw [List.eq_of_mem_replicate ha, hb]
        · rw [List.eq_of_mem_replicate ha, List.eq_of_mem_replicate hb]
    · have := getBrowserN_cached ok (n + 1) s lp hbp
      rw [this]
      refine ⟨by simp, ?_, by simp [hbp], fun lp1 h => ?_⟩
      · intro a ha b hb
        rw [List.eq_of_mem_replicate ha, List.eq_of_mem_replicate hb]
      · rw [← Option.some.inj h]
        exact getBrowser_cached ok s lp hbp

/-- C5 witness: three first callers on an empty cache share one launch; a
caller on a warm cache gets the cached launch with the state unchanged. -/
theorem c5_engine_single_flight_witness :
    (getBrowserN true 3 ⟨none, 0, 0, 0⟩).1.length = 3 ∧
    getBrowser true ⟨some ⟨0, true⟩, 1, 0, 0⟩ = (⟨0, true⟩, ⟨some ⟨0, true⟩, 1, 0, 0⟩) :=
  ⟨(c5_engine_single_flight true 3 ⟨none, 0, 0, 0⟩).1,
   (c5_engine_single_flight true 0 ⟨some ⟨0, true⟩, 1, 0, 0⟩).2.2.2 ⟨0, true⟩ rfl⟩

/-- Unfolding one submission step of the promise chain. -/
theorem submitAll_cons (q : QPromise) (j : QueuedJob) (rest : List QueuedJob) :
    submitAll q (j :: rest) =
      { start := q.settleAt, finish := q.settleAt + j.duration, ok := !j.fails } ::
        submitAll { settleAt := q.settleAt + j.duration, ok := true } rest := rfl

/-- The chain runs every submitted job exactly once. -/
theorem submitAll_length (q : QPromise) (jobs : List QueuedJob) :
    (submitAll q jobs).length = jobs.length := by
  induction jobs generalizing q with
  | nil => rfl
  | cons j rest ih =>
    rw [submitAll_cons, List.length_cons, ih, List.length_cons]

/-- No run in the chain starts before the queue promise it was chained on
settles. -/
theorem submitAll_start_ge (q : QPromise) (jobs : List QueuedJob) :
    ∀ r ∈ submitAll q jobs, q.settleAt ≤ r.start := by
  induction jobs generalizing q with
  | nil => intro r hr; simp [submitAll] at hr
  | cons j rest ih =>
    intro r hr
    rw [submitAll_cons] at hr
    rcases List.mem_cons.mp hr with hr | hr
    · rw [hr]
    · exact le_trans (Nat.le_add_right _ _) (ih _ r hr)

/-- Every run in the chain finishes no earlier than it starts. -/
theorem submitAll_start_le_finish (q : QPromise) (jobs : List QueuedJob) :
    ∀ r ∈ submitAll q jobs, r.start ≤ r.finish := by
  induction jobs generalizing q with
  | nil => intro r hr; simp [submitAll] at hr
  | cons j rest ih =>
    intro r hr
    rw [submitAll_cons] at hr
    rcases List.mem_cons.mp hr with hr | hr
    · rw [hr]; exact Nat.le_add_right _ _
    · exact ih _ r hr

/-- Runs in the chain are pairwise ordered: an earlier submission finishes
before (or exactly when) a later one starts. -/
theorem submitAll_pairwise (q : QPromise) (jobs : List QueuedJob) :
    (submitAll q jobs).Pairwise (fun a b => a.finish ≤ b.start) := by
  induction jobs generalizing q with
  | nil => simp [submitAll]
  | cons j rest ih =>
    rw [submitAll_cons]
    refine List.Pairwise.cons ?_ (ih _)
    intro b hb
    exact submitAll_start_ge _ rest b hb

/-- In a pairwise-ordered trace, at most one run contains any instant `t`. -/
theorem pairwise_window_filter (t : Nat) :
    ∀ l : List JobRun, l.Pairwise (fun a b => a.finish ≤ b.start) →
      (l.filter (fun r => decide (r.start ≤ t ∧ t < r.finish))).length ≤ 1 := by
  intro l hl
  induction l with
  | nil => simp
  | cons a rest ih =>
    rw [List.pairwise_cons] at hl
    obtain ⟨ha, hrest⟩ := hl
    rw [List.filter_cons]
    by_cases hpa : a.start ≤ t ∧ t < a.finish
    · rw [if_pos (by simpa using hpa)]
      have hnone : rest.filter (fun r => decide (r.start ≤ t ∧ t < r.finish)) = [] := by
        rw [List.filter_eq_nil_iff]
        intro b hb hdb
        have hfb := ha b hb
        rw [decide_eq_true_eq] at hdb
        obtain ⟨hpa1, hpa2⟩ := hpa
        obtain ⟨hb1, hb2⟩ := hdb
        omega
      rw [hnone]
      simp
    · rw [if_neg (by simpa using hpa)]
      exact ih hrest

/-- C1: the promise-chain queue serializes renders.  Every submitted job is
run exactly once; for every adjacent pair, job `i` finishes before or
exactly when job `i+1` starts, and starts occur in submission order; and at
any instant at most one render is in flight. -/
theorem c1_queue_fifo_no_overlap (jobs : List QueuedJob) :
    (renderTrace jobs).length = jobs.length ∧
    (∀ i, i + 1 < (renderTrace jobs).length →
      ((renderTrace jobs).getD i noRun).finish ≤ ((renderTrace jobs).getD (i + 1) noRun).start ∧
      ((renderTrace jobs).getD i noRun).start ≤ ((renderTrace jobs).getD (i + 1) noRun).start) ∧
    (∀ t, ((renderTrace jobs).filter
      (fun r => decide (r.start ≤ t ∧ t < r.finish))).length ≤ 1) := by
  refine ⟨submitAll_length _ jobs, ?_, fun t =>
    pairwise_window_filter t _ (submitAll_pairwise _ jobs)⟩
  intro i hi
  have hi0 : i < (renderTrace jobs).length := by omega
  have hp := (List.pairwise_iff_get.mp (submitAll_pairwise
    { settleAt := 0, ok := true } jobs)) ⟨i, hi0⟩ ⟨i + 1, hi⟩ (by simp)
  have hg0 : (renderTrace jobs).getD i noRun = (renderTrace jobs).get ⟨i, hi0⟩ := by
    rw [List.getD_eq_getElem _ _ hi0]
    rfl
  have hg1 : (renderTrace jobs).getD (i + 1) noRun = (renderTrace jobs).get ⟨i + 1, hi⟩ := by
    rw [List.getD_eq_getElem _ _ hi]
    rfl
  have hsf := submitAll_start_le_finish { settleAt := 0, ok := true } jobs
    ((renderTrace jobs).get ⟨i, hi0⟩) (List.get_mem _ _ _)
  rw [hg0, hg1]
  exact ⟨hp, le_trans hsf hp⟩

/-- C1 witness: three concrete submissions — the second one failing — run
back to back with no overlap at instant 2. -/
theorem c1_queue_fifo_no_overlap_witness :
    ((renderTrace [⟨2, false⟩, ⟨3, true⟩, ⟨1, false⟩]).getD 1 noRun).finish ≤
      ((renderTrace [⟨2, false⟩, ⟨3, true⟩, ⟨1, false⟩]).getD 2 noRun).start ∧
    ((renderTrace [⟨2, false⟩, ⟨3, true⟩, ⟨1, false⟩]).filter
      (fun r => decide (r.start ≤ 2 ∧ 2 < r.finish))).length ≤ 1 :=
  ⟨((c1_queue_fifo_no_overlap [⟨2, false⟩, ⟨3, true⟩, ⟨1, false⟩]).2.1 1 (by decide)).1,
   (c1_queue_fifo_no_overlap [⟨2, false⟩, ⟨3, true⟩, ⟨1, false⟩]).2.2 2⟩

/-- A failed job always clears the cached launch in its `catch` block. -/
theorem runJob_fail_clears (s : EngineState) (j : RenderJob)
    (h : (runJob s j).1.status ≠ 200) : (runJob s j).2.browserPromise = none := by
  rcases hbp : s.browserPromise with _ | lp <;>
    simp only [runJob, getBrowser, closePageQuietly, closeContextQuietly, tryCatchIgnore,
      closeResult, hbp] at h ⊢ <;>
    split_ifs at h ⊢ <;> simp_all

/-- A job that starts with no cached launch starts a fresh one. -/
theorem runJob_fresh (s : EngineState) (j : RenderJob) (h : s.browserPromise = none) :
    (runJob s j).1.freshLaunch = true := by
  simp only [runJob, getBrowser, h]
  split_ifs <;> simp [Option.isNone]

/-- A job whose own steps all succeed answers 200 whenever every cached
launch is good (in particular when nothing is cached). -/
theorem runJob_clean_ok (s : EngineState) (j : RenderJob)
    (hc : cleanJob j) (hr : cacheReady s) : (runJob s j).1.status = 200 := by
  obtain ⟨h1, h2, h3⟩ := hc
  rcases hbp : s.browserPromise with _ | lp <;>
    simp only [runJob, getBrowser, closePageQuietly, closeContextQuietly, tryCatchIgnore,
      closeResult, hbp, h1, h2, h3] <;>
    split_ifs <;> simp_all [cacheReady]

/-- No job ever leaves a failed launch or render cached as ready. -/
theorem runJob_cacheReady (s : EngineState) (j : RenderJob) :
    cacheReady (runJob s j).2 := by
  intro lp2 hlp2
  rcases hbp : s.browserPromise with _ | lp <;>
    simp only [runJob, getBrowser, closePageQuietly, closeContextQuietly, tryCatchIgnore,
      closeResult, hbp] at hlp2 <;>
    split_ifs at hlp2 <;> simp_all <;> exact hlp2 ▸ rfl

/-- Unfolding one step of the serialized job list. -/
theorem runAll_cons (s : EngineState) (j : RenderJob) (rest : List RenderJob) :
    runAll s (j :: rest) =
      ((runJob s j).1 :: (runAll (runJob s j).2 rest).1, (runAll (runJob s j).2 rest).2) := rfl

/-- Every queued job produces a result: none is skipped. -/
theorem runAll_length (s : EngineState) (jobs : List RenderJob) :
    (runAll s jobs).1.length = jobs.length := by
  induction jobs generalizing s with
  | nil => rfl
  | cons j rest ih =>
    rw [runAll_cons]
    simp [ih]

/-- With every cached launch good, each clean job answers 200 no matter
what the jobs around it did. -/
theorem runAll_clean_ok (s : EngineState) (jobs : List RenderJob) (hr : cacheReady s) :
    ∀ m, m < jobs.length → cleanJob (jobs.getD m noJob) →
      ((runAll s jobs).1.getD m noResult).status = 200 := by
  induction jobs generalizing s with
  | nil => intro m hm; simp at hm
  | cons j rest ih =>
    intro m hm hc
    rw [runAll_cons]
    cases m with
    | zero =>
      rw [List.getD_cons_zero]
      rw [List.getD_cons_zero] at hc
      exact runJob_clean_ok s j hc hr
    | succ m =>
      rw [List.getD_cons_succ]
      rw [List.getD_cons_succ] at hc
      exact ih _ (runJob_cacheReady s j) m (by simpa using hm) hc

/-- `cacheReady` is preserved across any job sequence. -/
theorem runAll_cacheReady (s : EngineState) (jobs : List RenderJob) (hr : cacheReady s) :
    cacheReady (runAll s jobs).2 := by
  induction jobs generalizing s with
  | nil => exact hr
  | cons j rest ih =>
    rw [runAll_cons]
    exact ih _ (runJob_cacheReady s j)

/-- After a failed job, the next job starts a fresh launch and, when its own
steps succeed, answers 200. -/
theorem runAll_adjacent (s : EngineState) (jobs : List RenderJob) (k : Nat)
    (hk : k + 1 < jobs.length)
    (hfail : ((runAll s jobs).1.getD k noResult).status ≠ 200) :
    ((runAll s jobs).1.getD (k + 1) noResult).freshLaunch = true ∧
    (cleanJob (jobs.getD (k + 1) noJob) →
      ((runAll s jobs).1.getD (k + 1) noResult).status = 200) := by
  induction jobs generalizing s k with
  | nil => simp at hk
  | cons j rest ih =>
    cases k with
    | zero =>
      rcases rest with _ | ⟨j1, rest1⟩
      · simp at hk
      · rw [runAll_cons] at hfail ⊢
        rw [List.getD_cons_zero] at hfail
        rw [List.getD_cons_succ, List.getD_cons_succ, List.getD_cons_zero]
        rw [runAll_cons, List.getD_cons_zero]
        have hnone := runJob_fail_clears s j hfail
        refine ⟨runJob_fresh _ j1 hnone, fun hc => ?_⟩
        exact runJob_clean_ok _ j1 hc (fun lp h => by rw [hnone] at h; exact absurd h (by simp))
    | succ k =>
      rw [runAll_cons] at hfail ⊢
      rw [List.getD_cons_succ] at hfail
      rw [List.getD_cons_succ, List.getD_cons_succ]
      exact ih _ k (by simpa using hk) hfail

/-- C2: failure isolation and engine relaunch.  Every queued job yields a
result; when job `k`'s result is a failure, job `k+1` obtains a freshly
launched engine and — if its own launch, load and capture succeed — answers
200; and as long as every cached launch is good initially, every clean job
answers 200 and no failed launch or render is ever left cached as ready. -/
theorem c2_failure_isolation_relaunch (s : EngineState) (jobs : List RenderJob) (k : Nat)
    (hk : k + 1 < jobs.length) :
    (runAll s jobs).1.length = jobs.length ∧
    (((runAll s jobs).1.getD k noResult).status ≠ 200 →
      ((runAll s jobs).1.getD (k + 1) noResult).freshLaunch = true ∧
      (cleanJob (jobs.getD (k + 1) noJob) →
        ((runAll s jobs).1.getD (k + 1) noResult).status = 200)) ∧
    (cacheReady s →
      (∀ m, m < jobs.length → cleanJob (jobs.getD m noJob) →
        ((runAll s jobs).1.getD m noResult).status = 200) ∧
      cacheReady (runAll s jobs).2) :=
  ⟨runAll_length s jobs,
   fun hfail => runAll_adjacent s jobs k hk hfail,
   fun hr => ⟨runAll_clean_ok s jobs hr, runAll_cacheReady s jobs hr⟩⟩

/-- C2 witness: from a cold state, a job whose content load fails is
followed by a clean job that relaunches the engine and succeeds. -/
theorem c2_failure_isolation_relaunch_witness :
    ((runAll ⟨none, 0, 0, 0⟩
        [⟨false, true, false, false, false⟩, noJob]).1.getD 1 noResult).freshLaunch = true ∧
    ((runAll ⟨none, 0, 0, 0⟩
        [⟨false, true, false, false, false⟩, noJob]).1.getD 1 noResult).status = 200 := by
  have h := (c2_failure_isolation_relaunch ⟨none, 0, 0, 0⟩
    [⟨false, true, false, false, false⟩, noJob] 0 (by decide)).2.1 (by decide)
  exact ⟨h.1, h.2 (by decide)⟩

/-- C4: surface release on every exit path.  Whatever the job's environment
does — success, a rejected launch, a failing load, a failing capture, or
closes that throw — the job leaves the open-page and open-context counters
exactly where they were, no error escapes the handler, and the job's entire
observable behaviour is independent of whether the teardown closes throw. -/
theorem c4_surface_release_suppressed (s : EngineState) (j : RenderJob) (b1 b2 : Bool) :
    (runJob s j).2.openPages = s.openPages ∧
    (runJob s j).2.openContexts = s.openContexts ∧
    (runJob s j).1.escaped = false ∧
    runJob s { j with closePageThrows := b1, closeContextThrows := b2 } = runJob s j := by
  rcases hbp : s.browserPromise with _ | lp <;>
    simp only [runJob, getBrowser, closePageQuietly, closeContextQuietly, tryCatchIgnore,
      closeResult, hbp] <;>
    split_ifs <;> simp_all [Except.isOk, Except.toBool]

/-- Flattening the greedy pass returns the pending page followed by the
remaining input: no group is dropped, duplicated or reordered. -/
theorem paginateGo_flatten (cfg : PaginateConfig) :
    ∀ (rest current : List DayGroup) (used : Nat),
      (paginateGo cfg rest current used).flatten = current ++ rest := by
  intro rest
  induction rest with
  | nil =>
    intro current used
    by_cases h : current = []
    · simp [paginateGo, h]
    · simp [paginateGo, h]
  | cons g rs ih =>
    intro current used
    by_cases h : current ≠ [] ∧ cfg.maxLinesPerPage < used + groupCost cfg g
    · simp only [paginateGo, if_pos h, List.flatten_cons, ih]
      simp
    · simp only [paginateGo, if_neg h, ih]
      simp

/-- Decorating the raw pages with index and total does not disturb their day
groups. -/
theorem paginate_map_dayGroups (cfg : PaginateConfig) (groups : List DayGroup) :
    (paginate cfg groups).map Page.dayGroups = paginateGo cfg groups [] 0 := by
  unfold paginate
  rw [List.map_map]
  have hc : (Page.dayGroups ∘ fun ip : Nat × List DayGroup =>
      (⟨ip.1 + 1, (paginateGo cfg groups [] 0).length, ip.2⟩ : Page)) = Prod.snd := rfl
  rw [hc, List.enum_map_snd]

/-- Collecting entries page by page is the same as flattening the pages to
groups first. -/
theorem flatMap_entries_of_pages (ps : List Page) :
    ps.flatMap (fun p => p.dayGroups.flatMap DayGroup.entries) =
      ((ps.map Page.dayGroups).flatten).flatMap DayGroup.entries := by
  induction ps with
  | nil => rfl
  | cons p rest ih =>
    simp only [List.flatMap_cons, List.map_cons, List.flatten_cons, List.flatMap_append, ih]

/-- C6: pagination preserves the input exactly.  Concatenating the day
groups over all output pages in page order returns the input group sequence,
and hence concatenating all entries in page order, day-group order, entry
order returns the input entry sequence — nothing dropped, duplicated or
reordered. -/
theorem c6_pagination_preserves_entries (cfg : PaginateConfig) (groups : List DayGroup) :
    ((paginate cfg groups).map Page.dayGroups).flatten = groups ∧
    (paginate cfg groups).flatMap (fun p => p.dayGroups.flatMap DayGroup.entries) =
      groups.flatMap DayGroup.entries := by
  have h : ((paginate cfg groups).map Page.dayGroups).flatten = groups := by
    rw [paginate_map_dayGroups, paginateGo_flatten]
    rfl
  refine ⟨h, ?_⟩
  rw [flatMap_entries_of_pages, h]

/-- A page is within budget, or it is exactly one oversized group. -/
def pageOk (cfg : PaginateConfig) (p : List DayGroup) : Prop :=
  pageCost cfg p ≤ cfg.maxLinesPerPage ∨
    ∃ g, p = [g] ∧ cfg.maxLinesPerPage < groupCost cfg g

/-- A one-group page is always acceptable: within budget or permitted
overflow. -/
theorem singleton_pageOk (cfg : PaginateConfig) (g : DayGroup) : pageOk cfg [g] := by
  by_cases h : groupCost cfg g ≤ cfg.maxLinesPerPage
  · left
    simp [pageCost, h]
  · right
    exact ⟨g, rfl, by omega⟩

/-- Page cost is additive over concatenation. -/
theorem pageCost_append (cfg : PaginateConfig) (a b : List DayGroup) :
    pageCost cfg (a ++ b) = pageCost cfg a + pageCost cfg b := by
  simp [pageCost]

/-- Every page the greedy pass emits is acceptable, provided the pending
page is and `used` tracks its cost. -/
theorem paginateGo_pageOk (cfg : PaginateConfig) :
    ∀ (rest current : List DayGroup) (used : Nat),
      used = pageCost cfg current → pageOk cfg current →
      ∀ q ∈ paginateGo cfg rest current used, pageOk cfg q := by
  intro rest
  induction rest with
  | nil =>
    intro current used hu hok q hq
    by_cases h : current = []
    · simp [paginateGo, h] at hq
    · simp only [paginateGo, if_neg h] at hq
      rw [List.mem_singleton.mp hq]
      exact hok
  | cons g rs ih =>
    intro current used hu hok q hq
    by_cases h : current ≠ [] ∧ cfg.maxLinesPerPage < used + groupCost cfg g
    · simp only [paginateGo, if_pos h] at hq
      rcases List.mem_cons.mp hq with hq | hq
      · rw [hq]; exact hok
      · exact ih [g] (groupCost cfg g) (by simp [pageCost]) (singleton_pageOk cfg g) q hq
    · simp only [paginateGo, if_neg h] at hq
      push_neg at h
      by_cases hcur : current = []
      · subst hcur
        have hu0 : used = 0 := by simpa [pageCost] using hu
        subst hu0
        exact ih [g] (0 + groupCost cfg g)
          (by simp [pageCost]) (singleton_pageOk cfg g) q (by simpa using hq)
      · have hle : used + groupCost cfg g ≤ cfg.maxLinesPerPage := h hcur
        refine ih (current ++ [g]) (used + groupCost cfg g) ?_ ?_ q hq
        · rw [pageCost_append, hu]
          simp [pageCost]
        · left
          rw [pageCost_append, ← hu]
          have : pageCost cfg [g] = groupCost cfg g := by simp [pageCost]
          omega

/-- C7: no output page exceeds the line budget, except a page holding
exactly one day group whose own cost exceeds it; and an oversized day group
always sits alone on its page — it is neither split nor dropped (C6 shows
nothing is dropped). -/
theorem c7_page_budget_overflow (cfg : PaginateConfig) (groups : List DayGroup)
    (_hmax : 0 < cfg.maxLinesPerPage) :
    ∀ p ∈ paginate cfg groups,
      (pageCost cfg p.dayGroups ≤ cfg.maxLinesPerPage ∨
        ∃ g, p.dayGroups = [g] ∧ cfg.maxLinesPerPage < groupCost cfg g) ∧
      ∀ g ∈ p.dayGroups, cfg.maxLinesPerPage < groupCost cfg g → p.dayGroups = [g] := by
  intro p hp
  have hmem : p.dayGroups ∈ paginateGo cfg groups [] 0 := by
    rw [← paginate_map_dayGroups cfg groups]
    exact List.mem_map_of_mem Page.dayGroups hp
  have hok := paginateGo_pageOk cfg groups [] 0 (by simp [pageCost])
    (Or.inl (by simp [pageCost])) p.dayGroups hmem
  refine ⟨hok, ?_⟩
  intro g hg hbig
  rcases hok with hle | ⟨g0, heq, hbig0⟩
  · have hel : groupCost cfg g ≤ pageCost cfg p.dayGroups := by
      have := List.single_le_sum (l := p.dayGroups.map (groupCost cfg))
        (by intro x hx; exact Nat.zero_le x) (groupCost cfg g)
        (List.mem_map_of_mem (groupCost cfg) hg)
      simpa [pageCost] using this
    omega
  · rw [heq] at hg
    rw [← List.mem_singleton.mp hg] at heq
    exact heq

/-- C7 witness: the configuration and Monday group of the design document's
first worked example. -/
theorem c7_page_budget_overflow_witness :
    0 < (⟨10, 2, 34⟩ : PaginateConfig).maxLinesPerPage ∧
    (∀ p ∈ paginate ⟨10, 2, 34⟩
        [⟨"mon", [⟨"mon", "A", 0, 0⟩, ⟨"mon", "B", 1, 1⟩]⟩],
      (pageCost ⟨10, 2, 34⟩ p.dayGroups ≤ 10 ∨
        ∃ g, p.dayGroups = [g] ∧ 10 < groupCost ⟨10, 2, 34⟩ g) ∧
      ∀ g ∈ p.dayGroups, 10 < groupCost ⟨10, 2, 34⟩ g → p.dayGroups = [g]) :=
  ⟨by decide, c7_page_budget_overflow ⟨10, 2, 34⟩
    [⟨"mon", [⟨"mon", "A", 0, 0⟩, ⟨"mon", "B", 1, 1⟩]⟩] (by decide)⟩

/-- No replacement block of `escapeChar` contains a markup-significant
character. -/
theorem escapeChar_no_raw (c : Char) : ∀ x ∈ escapeChar c, rawMarkupChar x = false := by
  intro x hx
  unfold escapeChar at hx
  split_ifs at hx with h1 h2 h3 h4 h5
  · exact (by decide : ∀ y ∈ "&amp;".data, rawMarkupChar y = false) x hx
  · exact (by decide : ∀ y ∈ "&lt;".data, rawMarkupChar y = false) x hx
  · exact (by decide : ∀ y ∈ "&gt;".data, rawMarkupChar y = false) x hx
  · exact (by decide : ∀ y ∈ "&quot;".data, rawMarkupChar y = false) x hx
  · exact (by decide : ∀ y ∈ "&#039;".data, rawMarkupChar y = false) x hx
  · rw [List.mem_singleton.mp hx]
    simp [rawMarkupChar, h2, h3, h4, h5]

/-- The escaped character stream contains no markup-significant character. -/
theorem escList_no_raw (cs : List Char) : ∀ x ∈ escList cs, rawMarkupChar x = false := by
  intro x hx
  rw [escList, List.mem_flatMap] at hx
  obtain ⟨c, _, hc⟩ := hx
  exact escapeChar_no_raw c x hc

/-- A leading match survives appending on the right. -/
theorem leadsWith_append_right (e l r : List Char) (h : leadsWith e l = true) :
    leadsWith e (l ++ r) = true := by
  induction e generalizing l with
  | nil => rfl
  | cons a as ih =>
    cases l with
    | nil => simp [leadsWith] at h
    | cons b bs =>
      rw [List.cons_append]
      rw [leadsWith] at h ⊢
      rw [Bool.and_eq_true] at h ⊢
      exact ⟨h.1, ih bs h.2⟩

/-- Inside one replacement block, every suffix starting with an ampersand
starts with a full entity. -/
def blockAmp (b : List Char) : Prop :=
  ∀ n, n < b.length → (b.drop n).head? = some '&' →
    htmlEntities.any (fun e => leadsWith e (b.drop n)) = true

instance (b : List Char) : Decidable (blockAmp b) := by
  unfold blockAmp
  infer_instance

/-- Each replacement block has the ampersand-entity property: an entity
block is itself an entity with no interior ampersand, and an unescaped
character is not an ampersand. -/
theorem escapeChar_blockAmp (c : Char) : blockAmp (escapeChar c) := by
  unfold escapeChar
  split_ifs with h1 h2 h3 h4 h5
  · decide
  · decide
  · decide
  · decide
  · decide
  · intro n hn hh
    have hn0 : n = 0 := by
      simp at hn
      omega
    subst hn0
    simp at hh
    exact absurd hh h1

/-- Every ampersand in the escaped stream begins one of the five
entities. -/
theorem escList_amp (cs : List Char) :
    ∀ n, ((escList cs).drop n).head? = some '&' →
      beginsEntity ((escList cs).drop n) = true := by
  induction cs with
  | nil =>
    intro n h
    simp [escList] at h
  | cons c cs ih =>
    intro n h
    have hsplit : (escList (c :: cs)).drop n =
        (escapeChar c).drop n ++ (escList cs).drop (n - (escapeChar c).length) := by
      have hcons : escList (c :: cs) = escapeChar c ++ escList cs := by
        rw [escList, List.flatMap_cons, escList]
      rw [hcons, List.drop_append_eq_append_drop]
    by_cases hn : n < (escapeChar c).length
    · have hbne : (escapeChar c).drop n ≠ [] := by
        intro hnil
        rw [List.drop_eq_nil_iff] at hnil
        omega
      obtain ⟨d, ds, hds⟩ := List.exists_cons_of_ne_nil hbne
      have hhead : d = '&' := by
        rw [hsplit, hds] at h
        simpa using h
      have hblock := escapeChar_blockAmp c n hn (by rw [hds, hhead]; rfl)
      rw [List.any_eq_true] at hblock
      obtain ⟨e, he, hlw⟩ := hblock
      rw [hsplit]
      rw [beginsEntity, List.any_eq_true]
      exact ⟨e, he, leadsWith_append_right e _ _ hlw⟩
    · have hbn : (escapeChar c).drop n = [] := by
        rw [List.drop_eq_nil_iff]
        omega
      rw [hsplit, hbn, List.nil_append] at h ⊢
      exact ih _ h

/-- Escaped output never contains a `<`. -/
theorem escapeHtml_count_lt (s : String) : (escapeHtml s).data.count '<' = 0 := by
  rw [List.count_eq_zero]
  intro hmem
  have := escList_no_raw s.data '<' hmem
  simp [rawMarkupChar] at this

/-- One row fragment contains exactly the six `<` of its static template,
whatever the row's texts are. -/
theorem rowHtml_count_lt (r : RowLR) : ltCount (rowHtml r) = 6 := by
  unfold rowHtml ltCount
  rw [String.data_append, String.data_append, String.data_append, String.data_append,
    List.count_append, List.count_append, List.count_append, List.count_append,
    escapeHtml_count_lt, escapeHtml_count_lt]
  decide

/-- The whole row block contains exactly six `<` per row: user data can
never inject an extra tag opener. -/
theorem rowsHtml_count_lt (rows : List RowLR) : ltCount (rowsHtml rows) = 6 * rows.length := by
  unfold rowsHtml
  induction rows with
  | nil => rfl
  | cons r rest ih =>
    rw [List.map_cons]
    show ltCount (rowHtml r ++ concatAll (rest.map rowHtml)) = _
    unfold ltCount
    rw [String.data_append, List.count_append]
    have h1 := rowHtml_count_lt r
    unfold ltCount at h1
    rw [h1]
    unfold ltCount at ih
    rw [ih]
    simp [Nat.mul_succ]
    omega

/-- C10: `escapeHtml` replaces exactly `&`, `<`, `>`, `"` and the apostrophe
by their entities and keeps every other character; its output contains no
`<`, `>`, `"` or apostrophe; every `&` in its output begins one of the five
replacement entities; the header texts and both row texts are interpolated
into the markup only through `escapeHtml`, so the row block carries exactly
the six template `<` per row and the header fragments carry no
markup-significant character at all. -/
theorem c10_escape_interpolation (s : String) (rows : List RowLR) (hl tl hr dr : Option String) :
    escapeChar '&' = "&amp;".data ∧
    escapeChar '<' = "&lt;".data ∧
    escapeChar '>' = "&gt;".data ∧
    escapeChar '"' = "&quot;".data ∧
    escapeChar (Char.ofNat 39) = "&#039;".data ∧
    (∀ c, escapeChar c = [c] ∨
      c = '&' ∨ c = '<' ∨ c = '>' ∨ c = '"' ∨ c = Char.ofNat 39) ∧
    (∀ x ∈ (escapeHtml s).data, rawMarkupChar x = false) ∧
    (∀ n, ((escapeHtml s).data.drop n).head? = some '&' →
      beginsEntity ((escapeHtml s).data.drop n) = true) ∧
    ltCount (rowsHtml rows) = 6 * rows.length ∧
    (∀ x ∈ (headerLeftHtml hl tl).data, rawMarkupChar x = false) ∧
    (∀ x ∈ (headerRightHtml hr dr).data, rawMarkupChar x = false) := by
  refine ⟨rfl, rfl, rfl, rfl, rfl, ?_, ?_, ?_, rowsHtml_count_lt rows, ?_, ?_⟩
  · intro c
    unfold escapeChar
    split_ifs with h1 h2 h3 h4 h5
    · exact Or.inr (Or.inl h1)
    · exact Or.inr (Or.inr (Or.inl h2))
    · exact Or.inr (Or.inr (Or.inr (Or.inl h3)))
    · exact Or.inr (Or.inr (Or.inr (Or.inr (Or.inl h4))))
    · exact Or.inr (Or.inr (Or.inr (Or.inr (Or.inr h5))))
    · exact Or.inl rfl
  · exact escList_no_raw s.data
  · exact escList_amp s.data
  · exact escList_no_raw _
  · exact escList_no_raw _

/-- C10 witness: a concrete string whose ampersand begins an entity in the
output, and a row with a `<` in its text that still yields exactly six
template `<`. -/
theorem c10_escape_interpolation_witness :
    rawMarkupChar 'a' = false ∧
    beginsEntity ((escapeHtml "a&<z").data.drop 1) = true ∧
    ltCount (rowsHtml [⟨"p<q", "r"⟩]) = 6 * 1 := by
  have h := c10_escape_interpolation "a&<z" [⟨"p<q", "r"⟩] none none none none
  exact ⟨h.2.2.2.2.2.2.1 'a' (by decide), h.2.2.2.2.2.2.2.1 1 (by decide),
    h.2.2.2.2.2.2.2.2.1⟩
